import Mathlib

/-!
Shallow embedding of the `ynabvault` command-line utility (Go) and proofs
about it.  The program lists YNAB budgets over HTTP, downloads each budget's
JSON document and writes it to a sanitized, timestamped file.  Strings and
byte bodies are modelled at the Unicode-scalar level as `List Char`; Go
errors are modelled as an inductive value type; effectful calls (HTTP,
filesystem) are modelled by threading explicit behaviour functions.
-/

namespace YnabVault

/-- Model of a Go `error` value as produced by this program: a plain message,
the `fmt.Errorf "bad status: %d"` error, a `fmt.Errorf "...: %w"` wrapper
carrying its context string, or a two-error `errors.Join`. -/
inductive GoErr : Type where
  | msg (s : String)
  | badStatus (code : Nat)
  | wrap (context : String) (e : GoErr)
  | join (a b : GoErr)
deriving DecidableEq

/-- Go `errors.Join err closeErr` restricted to two arguments as used in
`httpGet`: `nil` when both are `nil`, otherwise the non-`nil` error(s); the
single-element `joinError` wrapper that Go builds around one non-nil error is
flattened away, which is observationally equal for everything this
development states (error-ness and carried status codes). -/
def errorsJoin : Option GoErr → Option GoErr → Option GoErr
  | none, none => none
  | some a, none => some a
  | none, some b => some b
  | some a, some b => some (.join a b)

/-- Go `unicode.IsLetter`, modelled exactly on the Basic Latin and Latin-1
Supplement blocks (scalar values below `0x100`, where the letters are
`A-Z`, `a-z`, `ª`, `µ`, `º`, `À-Ö`, `Ø-ö` and `ø-ÿ`).  Scalars at or above
`0x100` are mapped to `false`; every sanitization theorem that must hold for
the full Unicode tables is stated parametrically in the classifier, and this
concrete model is only evaluated at Latin-1 inputs. -/
def unicodeIsLetter (c : Char) : Bool :=
  let n := c.toNat
  (0x41 ≤ n && n ≤ 0x5A) || (0x61 ≤ n && n ≤ 0x7A) ||
  n == 0xAA || n == 0xB5 || n == 0xBA ||
  (0xC0 ≤ n && n ≤ 0xD6) || (0xD8 ≤ n && n ≤ 0xF6) || (0xF8 ≤ n && n ≤ 0xFF)

/-- Go `unicode.IsDigit` (decimal-digit category `Nd`), modelled exactly on
the blocks below `0x100`, where the only such digits are `0-9`. -/
def unicodeIsDigit (c : Char) : Bool :=
  0x30 ≤ c.toNat && c.toNat ≤ 0x39

/-- The replacement pass of `sanitizeFileName`:
`strings.NewReplacer(" ", "_", "/", "_").Replace`, which rewrites every
space and every forward slash to an underscore, one rune at a time. -/
def replaceSpaceSlash (c : Char) : Char :=
  if c = ' ' || c = '/' then '_' else c

/-- The keep-test of the `strings.Builder` loop in `sanitizeFileName`, in
source order: the literal specials `_ - + ( ) .` first, then
`unicode.IsLetter` / `unicode.IsDigit` (taken as parameters). -/
def sanitizeKeep (isL isD : Char → Bool) (c : Char) : Bool :=
  c == '_' || c == '-' || c == '+' || c == '(' || c == ')' || c == '.' ||
  isL c || isD c

/-- `sanitizeFileName` from the source, parametric in the letter/digit
classifiers: the replacement pass followed by the builder loop, which keeps
exactly the characters passing `sanitizeKeep` in order. -/
def sanitizeCore (isL isD : Char → Bool) (s : List Char) : List Char :=
  (s.map replaceSpaceSlash).filter (sanitizeKeep isL isD)

/-- `sanitizeFileName` instantiated at the concrete classifier model. -/
def sanitizeFileName (s : List Char) : List Char :=
  sanitizeCore unicodeIsLetter unicodeIsDigit s

/-- The sanitization pipeline exactly as the specification words it: first
replace each space and each forward slash with an underscore, then delete
every character that is not a letter, a digit, an underscore, a hyphen, a
plus sign, a parenthesis, or a period. -/
def sanitizeSpecSide (isL isD : Char → Bool) (s : List Char) : List Char :=
  (s.map fun c => if c = ' ' ∨ c = '/' then '_' else c).filter
    fun c => isL c || isD c ||
      c == '_' || c == '-' || c == '+' || c == '(' || c == ')' || c == '.'

theorem map_id_of_mem {α : Type} {f : α → α} :
    ∀ {l : List α}, (∀ x ∈ l, f x = x) → l.map f = l
  | [], _ => rfl
  | x :: xs, h => by
    simp only [List.map_cons, h x (List.mem_cons_self x xs),
      map_id_of_mem fun y hy => h y (List.mem_cons_of_mem x hy)]

theorem replaceSpaceSlash_fix (c : Char) :
    replaceSpaceSlash (replaceSpaceSlash c) = replaceSpaceSlash c := by
  unfold replaceSpaceSlash
  by_cases h1 : c = ' ' <;> by_cases h2 : c = '/' <;> simp [h1, h2]

theorem sanitizeCore_mem {isL isD : Char → Bool} {s : List Char} {c : Char}
    (hc : c ∈ sanitizeCore isL isD s) :
    sanitizeKeep isL isD c = true ∧ replaceSpaceSlash c = c := by
  unfold sanitizeCore at hc
  rw [List.mem_filter] at hc
  refine ⟨hc.2, ?_⟩
  rcases List.mem_map.mp hc.1 with ⟨y, _, rfl⟩
  exact replaceSpaceSlash_fix y

/-- C1: `sanitizeFileName` equals the spec's pipeline — replace each space
and slash with an underscore, then delete every character that is not a
letter, digit, underscore, hyphen, plus, parenthesis, or period — for every
input string and every letter/digit classification (hence in particular for
the full Unicode tables); both sides are total Lean functions, so the map is
total and deterministic. -/
theorem C1_sanitizeFileName_spec (isL isD : Char → Bool) (s : List Char) :
    sanitizeCore isL isD s = sanitizeSpecSide isL isD s := by
  unfold sanitizeCore sanitizeSpecSide
  have hmap : ∀ c : Char,
      replaceSpaceSlash c = if c = ' ' ∨ c = '/' then '_' else c := by
    intro c
    unfold replaceSpaceSlash
    by_cases h1 : c = ' ' <;> by_cases h2 : c = '/' <;> simp [h1, h2]
  rw [show (fun c => if c = ' ' ∨ c = '/' then '_' else c) = replaceSpaceSlash
      from (funext fun c => (hmap c).symm)]
  refine List.filter_congr ?_
  intro c _
  unfold sanitizeKeep
  rcases h1 : isL c <;> rcases h2 : isD c <;> simp

/-- C9: sanitization is idempotent for every input string and every
letter/digit classification: the first pass leaves no spaces or slashes, so
the replacement pass of the second application is the identity, and every
surviving character passes the keep-test again. -/
theorem C9_sanitize_idempotent (isL isD : Char → Bool) (s : List Char) :
    sanitizeCore isL isD (sanitizeCore isL isD s) = sanitizeCore isL isD s := by
  have hmap : (sanitizeCore isL isD s).map replaceSpaceSlash
      = sanitizeCore isL isD s := by
    apply map_id_of_mem
    intro c hc
    exact (sanitizeCore_mem hc).2
  have hfil : (sanitizeCore isL isD s).filter (sanitizeKeep isL isD)
      = sanitizeCore isL isD s := by
    apply List.filter_eq_self.mpr
    intro c hc
    exact (sanitizeCore_mem hc).1
  show ((sanitizeCore isL isD s).map replaceSpaceSlash).filter _ = _
  rw [hmap, hfil]

/-- C3 counterexample: the claim says the sanitizer's output never contains
a non-ASCII character, but `é` (U+00E9) is a Unicode letter, so
`sanitizeFileName "é" = "é"`, whose only character is not ASCII. -/
theorem C3_counterexample_nonascii :
    sanitizeFileName [Char.ofNat 0xE9] = [Char.ofNat 0xE9] ∧
      ¬ (Char.ofNat 0xE9).toNat < 128 := by
  constructor
  · rfl
  · decide

/-- C3 amended: every character of the sanitizer's output is an underscore,
hyphen, plus sign, parenthesis, period, or a character the classifier deems
a letter or digit (for any classification, hence for the full Unicode
tables); the output is ASCII-only whenever every input character is ASCII,
but a non-ASCII letter such as `é` survives. -/
theorem C3_amended_output_charset (isL isD : Char → Bool) (s : List Char)
    (c : Char) (hc : c ∈ sanitizeCore isL isD s) :
    isL c = true ∨ isD c = true ∨
      c ∈ ['_', '-', '+', '(', ')', '.'] := by
  have h := (sanitizeCore_mem hc).1
  unfold sanitizeKeep at h
  simp only [Bool.or_eq_true, beq_iff_eq] at h
  rcases h with ((((((h | h) | h) | h) | h) | h) | h) | h <;> simp [h]

/-- Witness for the amended C3 at a concrete input: the underscore produced
from a space is in the sanitizer's output for `" "`, and the theorem places
it in the allowed character set. -/
theorem C3_amended_output_charset_witness :
    '_' ∈ sanitizeCore unicodeIsLetter unicodeIsDigit [' '] ∧
      (unicodeIsLetter '_' = true ∨ unicodeIsDigit '_' = true ∨
        '_' ∈ ['_', '-', '+', '(', ')', '.']) :=
  ⟨by decide, C3_amended_output_charset unicodeIsLetter unicodeIsDigit [' '] '_'
    (by decide)⟩

/-- Model of a Go `time.Time` restricted to whole-second UTC instants — the
only values this program ever constructs (they come from RFC3339 Zulu
timestamps in the YNAB API responses).  On such a value Go's `UTC()` only
changes the rendering location, and these fields already are the UTC civil
fields, so `goTimeUTC` below is the identity. -/
structure GoTime : Type where
  year : Nat
  month : Nat
  day : Nat
  hour : Nat
  minute : Nat
  second : Nat
deriving DecidableEq

/-- Go `t.UTC()` on an instant whose fields are already the UTC civil
fields: the instant is unchanged. -/
def goTimeUTC (t : GoTime) : GoTime := t

/-- The zero `time.Time`: January 1 of year 1, 00:00:00 UTC. -/
def zeroGoTime : GoTime := ⟨1, 1, 1, 0, 0, 0⟩

/-- The decimal digit character for `d < 10`. -/
def digitChar (d : Nat) : Char := Char.ofNat (0x30 + d)

/-- Two-digit zero-padded decimal rendering, as Go's `Format` produces for
the layout fields `01`, `02`, `15`, `04`, `05` (all values are below 100). -/
def pad2 (n : Nat) : List Char := [digitChar (n / 10), digitChar (n % 10)]

/-- Four-digit zero-padded decimal rendering, as Go's `Format` produces for
the layout field `2006` on years 0–9999; split into two `pad2` halves. -/
def pad4 (n : Nat) : List Char := pad2 (n / 100) ++ pad2 (n % 100)

/-- Go `t.Format "20060102T150405Z"` (the `timeFormat` constant): four-digit
year, two-digit month, day, literal `T`, two-digit hour, minute, second and
a literal trailing `Z` (a lone `Z` not followed by an offset pattern is a
literal in a Go layout). -/
def formatYnabStamp (t : GoTime) : List Char :=
  pad4 t.year ++ pad2 t.month ++ pad2 t.day ++
    'T' :: (pad2 t.hour ++ pad2 t.minute ++ pad2 t.second ++ ['Z'])

/-- A budget summary as decoded from the list endpoint: `ID`, `Name` and
`LastModifiedOn` with the JSON tags `id`, `name`, `last_modified_on`. -/
structure Budget : Type where
  ID : List Char
  Name : List Char
  LastModifiedOn : GoTime
deriving DecidableEq

/-- The zero `Budget` value. -/
def zeroBudget : Budget := ⟨[], [], zeroGoTime⟩

/-- `buildFilename`: `fmt.Sprintf "%s_%s_%s.json"` of the sanitized name,
the ID, and the UTC timestamp rendering. -/
def buildFilename (b : Budget) : List Char :=
  sanitizeFileName b.Name ++ '_' :: (b.ID ++ '_' ::
    (formatYnabStamp (goTimeUTC b.LastModifiedOn) ++ ".json".data))

/-- The timestamp pattern `YYYYMMDDThhmmssZ` exactly as the specification
words it: four year digits, two month digits, two day digits, a literal
`T`, two hour digits, two minute digits, two second digits, a literal `Z`. -/
def specStamp (t : GoTime) : List Char :=
  pad4 t.year ++ (pad2 t.month ++ (pad2 t.day ++
    ('T' :: (pad2 t.hour ++ (pad2 t.minute ++ (pad2 t.second ++ ['Z']))))))

/-- C4: `buildFilename` is the sanitized name, an underscore, the ID, an
underscore, the UTC `YYYYMMDDThhmmssZ` rendering of the last-modified
instant, and `.json`; and on the spec's concrete example (`abc123`,
`My Budget`, 2025-05-14T15:30:45Z) it returns exactly
`My_Budget_abc123_20250514T153045Z.json`. -/
theorem C4_buildFilename_spec :
    (∀ b : Budget, buildFilename b
      = sanitizeFileName b.Name ++ "_".data ++ b.ID ++ "_".data ++
          specStamp (goTimeUTC b.LastModifiedOn) ++ ".json".data) ∧
    buildFilename ⟨"abc123".data, "My Budget".data, ⟨2025, 5, 14, 15, 30, 45⟩⟩
      = "My_Budget_abc123_20250514T153045Z.json".data := by
  constructor
  · intro b
    show sanitizeFileName b.Name ++ _ = _
    simp [specStamp, formatYnabStamp, goTimeUTC]
  · rfl

/-! ### RFC3339 timestamp parsing (Go `time.Parse time.RFC3339`)

Modelled for the Zulu form `YYYY-MM-DDThh:mm:ss[.fff...]Z`, the form the
YNAB API and every test in the repository use; numeric-offset timestamps
(`±hh:mm`) are outside the model.  Go validates the component ranges
(month, day against the month length including leap years, hour, minute,
second) and rejects anything else. -/

/-- Decimal digit test used by the timestamp reader. -/
def isDigitChar (c : Char) : Bool := 0x30 ≤ c.toNat && c.toNat ≤ 0x39

/-- The value of a decimal digit character, or `none`. -/
def digitVal (c : Char) : Option Nat :=
  if isDigitChar c then some (c.toNat - 0x30) else none

/-- Read exactly two decimal digits. -/
def read2 : List Char → Option (Nat × List Char)
  | a :: b :: rest =>
    match digitVal a, digitVal b with
    | some va, some vb => some (va * 10 + vb, rest)
    | _, _ => none
  | _ => none

/-- Read exactly four decimal digits. -/
def read4 (cs : List Char) : Option (Nat × List Char) :=
  match read2 cs with
  | some (hi, r) =>
    match read2 r with
    | some (lo, r2) => some (hi * 100 + lo, r2)
    | none => none
  | none => none

/-- Require a specific literal character. -/
def expectChar (c : Char) : List Char → Option (List Char)
  | x :: rest => if x = c then some rest else none
  | _ => none

/-- Consume an optional fractional-second part: either nothing, or a dot
followed by at least one digit (the digits are discarded, as Go truncates
fractions this program never sees). -/
def dropFraction : List Char → Option (List Char)
  | '.' :: rest =>
    let ds := rest.takeWhile isDigitChar
    if ds.isEmpty then none else some (rest.dropWhile isDigitChar)
  | cs => some cs

/-- Leap-year rule of the proleptic Gregorian calendar, as in Go's
`time` package. -/
def isLeapYear (y : Nat) : Bool := (y % 4 == 0 && y % 100 != 0) || y % 400 == 0

/-- Days in a month, as Go validates a parsed day-of-month. -/
def daysInMonth (y mo : Nat) : Nat :=
  if mo = 2 then (if isLeapYear y then 29 else 28)
  else if mo = 4 || mo = 6 || mo = 9 || mo = 11 then 30
  else 31

/-- The component-range validation Go applies while parsing: month 1–12,
day 1 to the month's length, hour below 24, minute and second below 60.
Years above 9999 cannot appear in a four-digit field. -/
def validGoTime (t : GoTime) : Bool :=
  t.year ≤ 9999 && 1 ≤ t.month && t.month ≤ 12 &&
  1 ≤ t.day && t.day ≤ daysInMonth t.year t.month &&
  t.hour ≤ 23 && t.minute ≤ 59 && t.second ≤ 59

/-- Go `time.Parse time.RFC3339` on the Zulu form: fixed-width numeric
fields, literal separators, optional fraction, final `Z`, then the range
validation. -/
def parseRFC3339 (cs : List Char) : Option GoTime :=
  match read4 cs with
  | none => none
  | some (y, r1) =>
  match expectChar '-' r1 with
  | none => none
  | some r2 =>
  match read2 r2 with
  | none => none
  | some (mo, r3) =>
  match expectChar '-' r3 with
  | none => none
  | some r4 =>
  match read2 r4 with
  | none => none
  | some (d, r5) =>
  match expectChar 'T' r5 with
  | none => none
  | some r6 =>
  match read2 r6 with
  | none => none
  | some (h, r7) =>
  match expectChar ':' r7 with
  | none => none
  | some r8 =>
  match read2 r8 with
  | none => none
  | some (mi, r9) =>
  match expectChar ':' r9 with
  | none => none
  | some r10 =>
  match read2 r10 with
  | none => none
  | some (s, r11) =>
  match dropFraction r11 with
  | none => none
  | some r12 =>
  match r12 with
  | ['Z'] =>
    let t : GoTime := ⟨y, mo, d, h, mi, s⟩
    if validGoTime t then some t else none
  | _ => none

/-- RFC3339 Zulu rendering of a `GoTime`, used by the test-envelope encoder
(the YNAB wire format for `last_modified_on`). -/
def formatRFC3339 (t : GoTime) : List Char :=
  pad4 t.year ++ '-' :: (pad2 t.month ++ '-' :: (pad2 t.day ++
    'T' :: (pad2 t.hour ++ ':' :: (pad2 t.minute ++ ':' :: (pad2 t.second ++ ['Z'])))))

theorem digitVal_digitChar {d : Nat} (h : d < 10) :
    digitVal (digitChar d) = some d := by
  interval_cases d <;> rfl

theorem read2_pad2 {n : Nat} (h : n < 100) (rest : List Char) :
    read2 (pad2 n ++ rest) = some (n, rest) := by
  have h1 : n / 10 < 10 := by omega
  have h2 : n % 10 < 10 := by omega
  simp only [pad2, List.cons_append, List.nil_append, read2,
    digitVal_digitChar h1, digitVal_digitChar h2]
  congr 2
  omega

theorem read4_pad4 {n : Nat} (h : n < 10000) (rest : List Char) :
    read4 (pad4 n ++ rest) = some (n, rest) := by
  have h1 : n / 100 < 100 := by omega
  have h2 : n % 100 < 100 := by omega
  simp only [pad4, List.append_assoc, read4, read2_pad2 h1, read2_pad2 h2]
  congr 2
  omega

theorem expectChar_cons (c : Char) (rest : List Char) :
    expectChar c (c :: rest) = some rest := by
  simp [expectChar]

theorem daysInMonth_le (y mo : Nat) : daysInMonth y mo ≤ 31 := by
  unfold daysInMonth
  split
  · split <;> omega
  · split <;> omega

theorem parseRFC3339_format {t : GoTime} (hv : validGoTime t = true) :
    parseRFC3339 (formatRFC3339 t) = some t := by
  have hv' := hv
  simp only [validGoTime, Bool.and_eq_true, decide_eq_true_eq] at hv'
  have hy : t.year < 10000 := by omega
  have hmo : t.month < 100 := by omega
  have hd : t.day < 100 := by
    have := daysInMonth_le t.year t.month
    omega
  have hh : t.hour < 100 := by omega
  have hmi : t.minute < 100 := by omega
  have hs : t.second < 100 := by omega
  simp only [formatRFC3339, parseRFC3339, List.append_assoc, List.cons_append,
    read4_pad4 hy, expectChar_cons, read2_pad2 hmo, read2_pad2 hd,
    read2_pad2 hh, read2_pad2 hmi, read2_pad2 hs]
  simp [dropFraction, hv]

/-! ### JSON syntax (Go `encoding/json`, syntactic layer)

`json.Unmarshal` first validates the whole input syntactically and then
decodes it, so it is modelled as a total parser to a JSON value followed by
a typed decoding stage.  Numbers are kept as their lexemes: the decoded
structs have no numeric fields, so a number's value is never interpreted,
only its (mis)match with a target type. -/

/-- A parsed JSON value. -/
inductive Json : Type where
  | null
  | bool (b : Bool)
  | num (lexeme : List Char)
  | str (s : List Char)
  | arr (xs : List Json)
  | obj (fields : List (List Char × Json))

/-- The opening brace character (U+007B). -/
def lbrace : Char := Char.ofNat 0x7B

/-- The closing brace character (U+007D). -/
def rbrace : Char := Char.ofNat 0x7D

/-- JSON insignificant whitespace: space, tab, newline, carriage return. -/
def isJsonWs (c : Char) : Bool :=
  c == ' ' || c == '\t' || c == '\n' || c == '\r'

/-- Skip insignificant whitespace. -/
def skipWs : List Char → List Char
  | c :: cs => if isJsonWs c then skipWs cs else c :: cs
  | [] => []

/-- Hexadecimal digit value, for `\uXXXX` escapes. -/
def hexDigitVal (c : Char) : Option Nat :=
  if isDigitChar c then some (c.toNat - 0x30)
  else if 0x61 ≤ c.toNat && c.toNat ≤ 0x66 then some (c.toNat - 0x61 + 10)
  else if 0x41 ≤ c.toNat && c.toNat ≤ 0x46 then some (c.toNat - 0x41 + 10)
  else none

/-- Single-character JSON escapes. -/
def unescapeChar : Char → Option Char
  | '"' => some '"'
  | '\\' => some '\\'
  | '/' => some '/'
  | 'b' => some (Char.ofNat 8)
  | 'f' => some (Char.ofNat 12)
  | 'n' => some '\n'
  | 'r' => some (Char.ofNat 13)
  | 't' => some '\t'
  | _ => none

/-- Parse the contents of a string literal after its opening quote: plain
characters up to the closing quote, escapes `\" \\ \/ \b \f \n \r \t` and
`\uXXXX` (a `\uXXXX` escape becomes the scalar it names; surrogate-pair
recombination is outside the model, no input in this development uses it),
and a hard error on an unescaped control character or unterminated input,
as in Go's scanner. -/
def parseStringBody : List Char → Option (List Char × List Char)
  | [] => none
  | c :: rest =>
    if c = '"' then some ([], rest)
    else if c = '\\' then
      match rest with
      | 'u' :: a :: b :: c2 :: d :: rest2 =>
        (match hexDigitVal a, hexDigitVal b, hexDigitVal c2, hexDigitVal d with
        | some va, some vb, some vc, some vd =>
          match parseStringBody rest2 with
          | some (s, r) =>
            some (Char.ofNat (((va * 16 + vb) * 16 + vc) * 16 + vd) :: s, r)
          | none => none
        | _, _, _, _ => none)
      | e :: rest2 =>
        (match unescapeChar e with
        | some ch =>
          match parseStringBody rest2 with
          | some (s, r) => some (ch :: s, r)
          | none => none
        | none => none)
      | [] => none
    else if c.toNat < 0x20 then none
    else
      match parseStringBody rest with
      | some (s, r) => some (c :: s, r)
      | none => none

/-- Parse the optional fraction and exponent of a number and return the
consumed lexeme suffix with the remainder; a dot or exponent marker must be
followed by at least one digit. -/
def parseFracExp (rest : List Char) : Option (List Char × List Char) :=
  match
    (match rest with
    | '.' :: r =>
      let ds := r.takeWhile isDigitChar
      if ds.isEmpty then none else some ('.' :: ds, r.dropWhile isDigitChar)
    | _ => some ([], rest)) with
  | none => none
  | some (fracL, r1) =>
    match r1 with
    | e :: r2 =>
      if e = 'e' || e = 'E' then
        match
          (match r2 with
          | s :: r3 => if s = '+' || s = '-' then ([s], r3) else ([], r2)
          | [] => ([], r2)) with
        | (signL, r3) =>
          let ds := r3.takeWhile isDigitChar
          if ds.isEmpty then none
          else some (fracL ++ e :: signL ++ ds, r3.dropWhile isDigitChar)
      else some (fracL, r1)
    | [] => some (fracL, r1)

/-- Go's JSON number grammar `-?(0|[1-9][0-9]*)(\.[0-9]+)?([eE][+-]?[0-9]+)?`;
the lexeme is returned unparsed. -/
def parseNumberLexeme (cs : List Char) : Option (List Char × List Char) :=
  match
    (match cs with
    | '-' :: r => (['-'], r)
    | _ => (([] : List Char), cs)) with
  | (signL, r1) =>
    match r1 with
    | [] => none
    | c :: r2 =>
      if c = '0' then
        match parseFracExp r2 with
        | some (suffixL, r3) => some (signL ++ c :: suffixL, r3)
        | none => none
      else if isDigitChar c then
        let ds := r2.takeWhile isDigitChar
        match parseFracExp (r2.dropWhile isDigitChar) with
        | some (suffixL, r3) => some (signL ++ c :: (ds ++ suffixL), r3)
        | none => none
      else none

mutual

/-- Parse one JSON value (whitespace-tolerant), recursing on a fuel counter
so that totality is structural; the fuel the top-level entry point supplies
is large enough that exhaustion is unreachable. -/
def parseValue : Nat → List Char → Except GoErr (Json × List Char)
  | 0, _ => .error (.msg "exceeded max depth")
  | fuel + 1, cs =>
    match skipWs cs with
    | [] => .error (.msg "unexpected end of JSON input")
    | c :: rest =>
      if c = '"' then
        match parseStringBody rest with
        | some (s, r) => .ok (.str s, r)
        | none => .error (.msg "invalid string literal")
      else if c = lbrace then
        match skipWs rest with
        | c2 :: r2 =>
          if c2 = rbrace then .ok (.obj [], r2)
          else
            match parseFields fuel (c2 :: r2) with
            | .ok (fs, r3) => .ok (.obj fs, r3)
            | .error e => .error e
        | [] => .error (.msg "unexpected end of JSON input")
      else if c = '[' then
        match skipWs rest with
        | c2 :: r2 =>
          if c2 = ']' then .ok (.arr [], r2)
          else
            match parseItems fuel (c2 :: r2) with
            | .ok (xs, r3) => .ok (.arr xs, r3)
            | .error e => .error e
        | [] => .error (.msg "unexpected end of JSON input")
      else if c = 'n' then
        match rest with
        | 'u' :: 'l' :: 'l' :: r => .ok (.null, r)
        | _ => .error (.msg "invalid character in literal")
      else if c = 't' then
        match rest with
        | 'r' :: 'u' :: 'e' :: r => .ok (.bool true, r)
        | _ => .error (.msg "invalid character in literal")
      else if c = 'f' then
        match rest with
        | 'a' :: 'l' :: 's' :: 'e' :: r => .ok (.bool false, r)
        | _ => .error (.msg "invalid character in literal")
      else
        match parseNumberLexeme (c :: rest) with
        | some (lex, r) => .ok (.num lex, r)
        | none => .error (.msg "invalid character looking for value")

/-- Parse one-or-more comma-separated array elements and the closing
bracket (the empty array is recognised in `parseValue`). -/
def parseItems : Nat → List Char → Except GoErr (List Json × List Char)
  | 0, _ => .error (.msg "exceeded max depth")
  | fuel + 1, cs =>
    match parseValue fuel cs with
    | .error e => .error e
    | .ok (v, r) =>
      match skipWs r with
      | ',' :: r2 =>
        (match parseItems fuel r2 with
        | .ok (vs, r3) => .ok (v :: vs, r3)
        | .error e => .error e)
      | ']' :: r2 => .ok ([v], r2)
      | _ => .error (.msg "expected comma or bracket after array element")

/-- Parse one-or-more comma-separated object members and the closing brace
(the empty object is recognised in `parseValue`). -/
def parseFields : Nat → List Char →
    Except GoErr (List (List Char × Json) × List Char)
  | 0, _ => .error (.msg "exceeded max depth")
  | fuel + 1, cs =>
    match skipWs cs with
    | c :: r =>
      if c = '"' then
        match parseStringBody r with
        | some (k, r1) =>
          (match skipWs r1 with
          | ':' :: r2 =>
            (match parseValue fuel r2 with
            | .ok (v, r3) =>
              (match skipWs r3 with
              | c4 :: r4 =>
                if c4 = ',' then
                  match parseFields fuel r4 with
                  | .ok (fs, r5) => .ok ((k, v) :: fs, r5)
                  | .error e => .error e
                else if c4 = rbrace then .ok ([(k, v)], r4)
                else .error (.msg "expected comma or brace after object member")
              | [] => .error (.msg "unexpected end of JSON input"))
            | .error e => .error e)
          | _ => .error (.msg "expected colon after object key"))
        | none => .error (.msg "invalid string literal")
      else .error (.msg "expected object key")
    | [] => .error (.msg "unexpected end of JSON input")

end

/-- Parse a complete JSON document, rejecting trailing non-whitespace, as
`json.Unmarshal`'s validation pass does.  The fuel is an artefact of the
embedding; `2·length + 2` always suffices because every two nested parser
calls consume at least one input character. -/
def parseJson (cs : List Char) : Except GoErr Json :=
  match parseValue (2 * cs.length + 2) cs with
  | .error e => .error e
  | .ok (j, r) =>
    if (skipWs r).isEmpty then .ok j
    else .error (.msg "invalid character after top-level value")

/-! ### JSON decoding into the wrapper struct (Go `encoding/json`, typed layer)

`decodeBudgets` unmarshals into
`struct { Data struct { Budgets []Budget } }` with the field tags `data`,
`budgets`, `id`, `name`, `last_modified_on`.  Go matches an object key to a
field tag exactly or case-insensitively, ignores unknown keys, leaves a
field unchanged on JSON `null` (except a slice, which `null` zeroes), and
fails on a wrongly typed present value. -/

/-- ASCII lower-casing of one character. -/
def asciiLower (c : Char) : Char :=
  if 'A' ≤ c ∧ c ≤ 'Z' then Char.ofNat (c.toNat + 32) else c

/-- Go's key-to-tag match (exact or case-insensitive `EqualFold`); all tags
in play are lower-case ASCII, for which the fold is ASCII lower-casing. -/
def keyMatches (k tag : List Char) : Bool :=
  decide (k = tag) || decide (k.map asciiLower = tag)

/-- Unmarshal a JSON value into a `string`-kinded field: a string replaces
the value, `null` is a no-op, anything else is a type error. -/
def setStringField (j : Json) (cur : List Char) : Except GoErr (List Char) :=
  match j with
  | .str s => .ok s
  | .null => .ok cur
  | _ => .error (.msg "json: cannot unmarshal value into Go value of type string")

/-- Unmarshal a JSON value into a `time.Time` field
(`time.Time.UnmarshalJSON`): `null` is a no-op, a string must parse as
RFC3339, anything else is rejected as a non-string. -/
def setTimeField (j : Json) (cur : GoTime) : Except GoErr GoTime :=
  match j with
  | .null => .ok cur
  | .str s =>
    (match parseRFC3339 s with
    | some t => .ok t
    | none => .error (.msg "parsing time: invalid RFC3339 timestamp"))
  | _ => .error (.msg "Time.UnmarshalJSON: input is not a JSON string")

/-- Decode the members of a budget object into a `Budget`, in document
order: keys matching `id`, `name` or `last_modified_on` set the
corresponding field, unknown keys are ignored. -/
def unmarshalBudgetFields : List (List Char × Json) → Budget →
    Except GoErr Budget
  | [], b => .ok b
  | (k, v) :: rest, b =>
    if keyMatches k "id".data then
      match setStringField v b.ID with
      | .ok s => unmarshalBudgetFields rest { b with ID := s }
      | .error e => .error e
    else if keyMatches k "name".data then
      match setStringField v b.Name with
      | .ok s => unmarshalBudgetFields rest { b with Name := s }
      | .error e => .error e
    else if keyMatches k "last_modified_on".data then
      match setTimeField v b.LastModifiedOn with
      | .ok t => unmarshalBudgetFields rest { b with LastModifiedOn := t }
      | .error e => .error e
    else unmarshalBudgetFields rest b

/-- Unmarshal one array element into a freshly zeroed `Budget`: an object
decodes its members, `null` leaves the zero value, anything else is a type
error. -/
def unmarshalBudget (j : Json) : Except GoErr Budget :=
  match j with
  | .obj fs => unmarshalBudgetFields fs zeroBudget
  | .null => .ok zeroBudget
  | _ => .error (.msg "json: cannot unmarshal value into Go value of type Budget")

/-- Unmarshal a JSON array into `[]Budget`, element by element, in order. -/
def unmarshalBudgetList : List Json → Except GoErr (List Budget)
  | [] => .ok []
  | j :: rest =>
    match unmarshalBudget j with
    | .ok b =>
      (match unmarshalBudgetList rest with
      | .ok bs => .ok (b :: bs)
      | .error e => .error e)
    | .error e => .error e

/-- Unmarshal a JSON value into the `Budgets []Budget` field: `null` zeroes
the slice, an array decodes elementwise, anything else is a type error. -/
def setBudgetsField (j : Json) : Except GoErr (List Budget) :=
  match j with
  | .null => .ok []
  | .arr xs => unmarshalBudgetList xs
  | _ => .error (.msg "json: cannot unmarshal value into Go value of type []Budget")

/-- Decode the members of the inner `Data` object: keys matching `budgets`
set the slice, all other keys are ignored. -/
def unmarshalDataFields : List (List Char × Json) → List Budget →
    Except GoErr (List Budget)
  | [], cur => .ok cur
  | (k, v) :: rest, cur =>
    if keyMatches k "budgets".data then
      match setBudgetsField v with
      | .ok bs => unmarshalDataFields rest bs
      | .error e => .error e
    else unmarshalDataFields rest cur

/-- Unmarshal a JSON value into the inner `Data` struct field: an object
decodes its members, `null` is a no-op on a struct, anything else is a type
error. -/
def setDataField (j : Json) (cur : List Budget) : Except GoErr (List Budget) :=
  match j with
  | .obj fs => unmarshalDataFields fs cur
  | .null => .ok cur
  | _ => .error (.msg "json: cannot unmarshal value into Go value of type struct")

/-- Decode the members of the top-level wrapper object: keys matching
`data` decode the inner struct, all other keys are ignored. -/
def unmarshalWrapperFields : List (List Char × Json) → List Budget →
    Except GoErr (List Budget)
  | [], cur => .ok cur
  | (k, v) :: rest, cur =>
    if keyMatches k "data".data then
      match setDataField v cur with
      | .ok bs => unmarshalWrapperFields rest bs
      | .error e => .error e
    else unmarshalWrapperFields rest cur

/-- Unmarshal a parsed JSON document into the anonymous wrapper struct of
`decodeBudgets` and project out `wrapper.Data.Budgets`: a `null` document
leaves the zero value (an empty budget list), an object decodes its
members, anything else is a type error. -/
def unmarshalWrapper (j : Json) : Except GoErr (List Budget) :=
  match j with
  | .obj fs => unmarshalWrapperFields fs []
  | .null => .ok []
  | _ => .error (.msg "json: cannot unmarshal value into Go value of type struct")

/-- `decodeBudgets`: `json.Unmarshal` of the list-endpoint body into the
envelope wrapper, returning `wrapper.Data.Budgets` on success and the
decode error otherwise (never a panic — the model is a total function —
and never a zero-value success on a syntax error). -/
def decodeBudgets (data : List Char) : Except GoErr (List Budget) :=
  match parseJson data with
  | .error e => .error e
  | .ok j => unmarshalWrapper j

/-! ### A canonical well-formed list envelope and its round trip

`encodeEnvelope` renders `{"data":{"budgets":[...]}}` for a list of budget
summaries, the shape the YNAB list endpoint returns (compare the literal
fixtures in the repository's tests).  Strings whose characters are plain
(no quote, no backslash, no control character) render as themselves. -/

/-- A string whose characters need no escaping inside a JSON string
literal. -/
def PlainStr (s : List Char) : Prop :=
  ∀ c ∈ s, c ≠ '"' ∧ c ≠ '\\' ∧ 0x20 ≤ c.toNat

instance (s : List Char) : Decidable (PlainStr s) := by
  unfold PlainStr
  infer_instance

/-- Quote a plain string as a JSON string literal. -/
def quoteStr (s : List Char) : List Char := '"' :: (s ++ ['"'])

/-- Render one budget summary as its JSON object, fields in wire order. -/
def encodeBudget (b : Budget) : List Char :=
  lbrace :: (quoteStr "id".data ++ ':' :: (quoteStr b.ID ++ ',' ::
    (quoteStr "name".data ++ ':' :: (quoteStr b.Name ++ ',' ::
    (quoteStr "last_modified_on".data ++ ':' ::
      (quoteStr (formatRFC3339 b.LastModifiedOn) ++ [rbrace]))))))

/-- Render the comma-separated budget objects of a non-empty list. -/
def encodeItems : List Budget → List Char
  | [] => []
  | [b] => encodeBudget b
  | b :: rest => encodeBudget b ++ ',' :: encodeItems rest

/-- Render the budgets array. -/
def encodeBudgetsArr (bs : List Budget) : List Char :=
  match bs with
  | [] => ['[', ']']
  | _ => '[' :: (encodeItems bs ++ [']'])

/-- Render the inner `{"budgets":[...]}` object. -/
def encodeInner (bs : List Budget) : List Char :=
  lbrace :: (quoteStr "budgets".data ++ ':' :: (encodeBudgetsArr bs ++ [rbrace]))

/-- Render the full `{"data":{"budgets":[...]}}` envelope. -/
def encodeEnvelope (bs : List Budget) : List Char :=
  lbrace :: (quoteStr "data".data ++ ':' :: (encodeInner bs ++ [rbrace]))

/-- The JSON value a budget summary's object parses to. -/
def budgetJson (b : Budget) : Json :=
  .obj [("id".data, .str b.ID), ("name".data, .str b.Name),
    ("last_modified_on".data, .str (formatRFC3339 b.LastModifiedOn))]

/-- The JSON value the envelope parses to. -/
def envelopeJson (bs : List Budget) : Json :=
  .obj [("data".data, .obj [("budgets".data, .arr (bs.map budgetJson))])]

theorem skipWs_cons {c : Char} (h : isJsonWs c = false) (r : List Char) :
    skipWs (c :: r) = c :: r := by
  simp [skipWs, h]

theorem parseStringBody_plain {s : List Char} (h : PlainStr s) (rest : List Char) :
    parseStringBody (s ++ '"' :: rest) = some (s, rest) := by
  induction s with
  | nil =>
    rw [parseStringBody.eq_def]
    simp
  | cons c cs ih =>
    have hc := h c (List.mem_cons_self _ _)
    have ih' := ih fun x hx => h x (List.mem_cons_of_mem _ hx)
    rw [List.cons_append, parseStringBody.eq_def]
    simp [hc.1, hc.2.1, Nat.not_lt.mpr hc.2.2, ih']

theorem parseValue_quoteStr {s : List Char} (h : PlainStr s) (f : Nat)
    (rest : List Char) :
    parseValue (f + 1) (quoteStr s ++ rest) = .ok (.str s, rest) := by
  have hq : isJsonWs '"' = false := by decide
  simp [quoteStr, parseValue, skipWs_cons hq, parseStringBody_plain h]

theorem plain_pad2 {n : Nat} (hn : n < 100) : PlainStr (pad2 n) := by
  intro c hc
  have h1 : n / 10 < 10 := by omega
  have h2 : n % 10 < 10 := by omega
  have key : ∀ d : Nat, d < 10 →
      digitChar d ≠ '"' ∧ digitChar d ≠ '\\' ∧ 0x20 ≤ (digitChar d).toNat := by
    intro d hd
    interval_cases d <;> exact ⟨by decide, by decide, by decide⟩
  simp only [pad2, List.mem_cons, List.not_mem_nil, or_false] at hc
  rcases hc with rfl | rfl
  · exact key _ h1
  · exact key _ h2

theorem plain_append {s t : List Char} (hs : PlainStr s) (ht : PlainStr t) :
    PlainStr (s ++ t) := by
  intro c hc
  rcases List.mem_append.mp hc with h | h
  · exact hs c h
  · exact ht c h

theorem plain_formatRFC3339 {t : GoTime} (hv : validGoTime t = true) :
    PlainStr (formatRFC3339 t) := by
  have hv' := hv
  simp only [validGoTime, Bool.and_eq_true, decide_eq_true_eq] at hv'
  have hd : t.day < 100 := by
    have := daysInMonth_le t.year t.month
    omega
  have hy1 : t.year / 100 < 100 := by omega
  have hy2 : t.year % 100 < 100 := by omega
  have hsep : ∀ c ∈ ['-', ':', 'T', 'Z'], c ≠ '"' ∧ c ≠ '\\' ∧ 0x20 ≤ c.toNat := by
    decide
  intro c hc
  simp only [formatRFC3339, pad4, List.append_assoc, List.cons_append,
    List.mem_append, List.mem_cons] at hc
  rcases hc with h | h | rfl | h | rfl | h | rfl | h | rfl | h | rfl | h | rfl | h
  · exact plain_pad2 hy1 c h
  · exact plain_pad2 hy2 c h
  · exact hsep '-' (by simp)
  · exact plain_pad2 (by omega) c h
  · exact hsep '-' (by simp)
  · exact plain_pad2 hd c h
  · exact hsep 'T' (by simp)
  · exact plain_pad2 (by omega) c h
  · exact hsep ':' (by simp)
  · exact plain_pad2 (by omega) c h
  · exact hsep ':' (by simp)
  · exact plain_pad2 (by omega) c h
  · exact hsep 'Z' (by simp)
  · simp at h

theorem quoteStr_append (s : List Char) (z : List Char) :
    quoteStr s ++ z = '"' :: (s ++ '"' :: z) := by
  simp [quoteStr]

theorem parseValue_strLit {s : List Char} (h : PlainStr s) (f : Nat)
    (rest : List Char) :
    parseValue (f + 1) ('"' :: (s ++ '"' :: rest)) = .ok (.str s, rest) := by
  rw [parseValue.eq_def]
  simp only [skipWs_cons (show isJsonWs '"' = false from by decide), if_pos rfl,
    parseStringBody_plain h]
  simp

theorem parseFields_last {key : List Char} (hkey : PlainStr key)
    {vtxt : List Char → List Char} {v : Json} {k : Nat}
    (hv : ∀ f rest, parseValue (f + k) (vtxt rest) = .ok (v, rest))
    (f : Nat) (rest : List Char) :
    parseFields (f + k + 1) ('"' :: (key ++ '"' :: ':' :: vtxt (rbrace :: rest)))
      = .ok ([(key, v)], rest) := by
  rw [parseFields.eq_def]
  simp only [skipWs_cons (show isJsonWs '"' = false from by decide), if_pos rfl,
    parseStringBody_plain hkey, skipWs_cons (show isJsonWs ':' = false from by decide),
    hv f (rbrace :: rest), skipWs_cons (show isJsonWs rbrace = false from by decide)]
  simp [show rbrace ≠ ',' from by decide]

theorem parseFields_cons {key : List Char} (hkey : PlainStr key)
    {vtxt : List Char → List Char} {v : Json} {k : Nat}
    (hv : ∀ f rest, parseValue (f + k) (vtxt rest) = .ok (v, rest))
    {ftxt : List Char → List Char} {fs : List (List Char × Json)} {m : Nat}
    (hfs : ∀ f rest, parseFields (f + m) (ftxt rest) = .ok (fs, rest))
    (f : Nat) (rest : List Char) :
    parseFields (f + (k + m) + 1)
      ('"' :: (key ++ '"' :: ':' :: vtxt (',' :: ftxt rest)))
      = .ok ((key, v) :: fs, rest) := by
  rw [parseFields.eq_def]
  have e1 : f + (k + m) = (f + m) + k := by omega
  rw [e1]
  simp only [skipWs_cons (show isJsonWs '"' = false from by decide), if_pos rfl,
    parseStringBody_plain hkey, skipWs_cons (show isJsonWs ':' = false from by decide),
    hv (f + m) (',' :: ftxt rest),
    skipWs_cons (show isJsonWs ',' = false from by decide), if_pos rfl]
  have e2 : (f + m) + k = (f + k) + m := by omega
  rw [e2]
  simp [hfs (f + k) rest]

theorem parseValue_objIntro {ftxt : List Char → List Char}
    {fs : List (List Char × Json)} {n : Nat}
    (hfs : ∀ f rest, parseFields (f + n) (ftxt rest) = .ok (fs, rest))
    (hhead : ∀ rest, ∃ t, ftxt rest = '"' :: t)
    (f : Nat) (rest : List Char) :
    parseValue (f + n + 2) (lbrace :: ftxt rest) = .ok (.obj fs, rest) := by
  rw [parseValue.eq_def]
  obtain ⟨t, ht⟩ := hhead rest
  simp only [skipWs_cons (show isJsonWs lbrace = false from by decide),
    if_neg (show ¬ lbrace = '"' from by decide), if_pos rfl, ht,
    skipWs_cons (show isJsonWs '"' = false from by decide),
    if_neg (show ¬ '"' = rbrace from by decide)]
  rw [← ht]
  have : f + n + 1 = (f + 1) + n := by omega
  rw [this, hfs (f + 1) rest]
  simp

theorem parseItems_single {vtxt : List Char → List Char} {v : Json} {k : Nat}
    (hv : ∀ f rest, parseValue (f + k) (vtxt rest) = .ok (v, rest))
    (f : Nat) (rest : List Char) :
    parseItems (f + k + 1) (vtxt (']' :: rest)) = .ok ([v], rest) := by
  rw [parseItems.eq_def]
  simp only [hv f (']' :: rest),
    skipWs_cons (show isJsonWs ']' = false from by decide)]

theorem parseItems_cons {vtxt : List Char → List Char} {v : Json} {k : Nat}
    (hv : ∀ f rest, parseValue (f + k) (vtxt rest) = .ok (v, rest))
    {itxt : List Char → List Char} {vs : List Json} {m : Nat}
    (hi : ∀ f rest, parseItems (f + m) (itxt rest) = .ok (vs, rest))
    (f : Nat) (rest : List Char) :
    parseItems (f + (k + m) + 1) (vtxt (',' :: itxt rest)) = .ok (v :: vs, rest) := by
  rw [parseItems.eq_def]
  have e1 : f + (k + m) = (f + m) + k := by omega
  rw [e1]
  simp only [hv (f + m) (',' :: itxt rest),
    skipWs_cons (show isJsonWs ',' = false from by decide)]
  have e2 : (f + m) + k = (f + k) + m := by omega
  rw [e2]
  simp [hi (f + k) rest]

theorem parseValue_arrIntro {itxt : List Char → List Char}
    {vs : List Json} {n : Nat}
    (hi : ∀ f rest, parseItems (f + n) (itxt rest) = .ok (vs, rest))
    (hhead : ∀ rest, ∃ t, itxt rest = lbrace :: t)
    (f : Nat) (rest : List Char) :
    parseValue (f + n + 2) ('[' :: itxt rest) = .ok (.arr vs, rest) := by
  rw [parseValue.eq_def]
  obtain ⟨t, ht⟩ := hhead rest
  simp only [skipWs_cons (show isJsonWs '[' = false from by decide),
    if_neg (show ¬ '[' = '"' from by decide),
    if_neg (show ¬ '[' = lbrace from by decide), if_pos rfl, ht,
    skipWs_cons (show isJsonWs lbrace = false from by decide),
    if_neg (show ¬ lbrace = ']' from by decide)]
  rw [← ht]
  have : f + n + 1 = (f + 1) + n := by omega
  rw [this, hi (f + 1) rest]
  simp

theorem parseValue_emptyArr (f : Nat) (rest : List Char) :
    parseValue (f + 1) ('[' :: ']' :: rest) = .ok (.arr [], rest) := by
  rw [parseValue.eq_def]
  simp only [skipWs_cons (show isJsonWs '[' = false from by decide),
    if_neg (show ¬ '[' = '"' from by decide),
    if_neg (show ¬ '[' = lbrace from by decide), if_pos rfl,
    skipWs_cons (show isJsonWs ']' = false from by decide), if_pos rfl]
  simp



theorem parseValue_encodeBudget (b : Budget) (hid : PlainStr b.ID)
    (hname : PlainStr b.Name) (hts : validGoTime b.LastModifiedOn = true)
    (f : Nat) (rest : List Char) :
    parseValue (f + 8) (encodeBudget b ++ rest) = .ok (budgetJson b, rest) := by
  have hplainTs := plain_formatRFC3339 hts
  have F3 : ∀ f rest, parseFields (f + 2)
      ('"' :: ("last_modified_on".data ++ '"' :: ':' ::
        '"' :: (formatRFC3339 b.LastModifiedOn ++ '"' :: rbrace :: rest)))
      = .ok ([("last_modified_on".data, .str (formatRFC3339 b.LastModifiedOn))], rest) :=
    fun f rest => parseFields_last (by decide)
      (fun f r => parseValue_strLit hplainTs f r) f rest
  have F2 : ∀ f rest, parseFields (f + 4)
      ('"' :: ("name".data ++ '"' :: ':' ::
        '"' :: (b.Name ++ '"' :: ',' ::
        '"' :: ("last_modified_on".data ++ '"' :: ':' ::
        '"' :: (formatRFC3339 b.LastModifiedOn ++ '"' :: rbrace :: rest)))))
      = .ok ([("name".data, .str b.Name),
          ("last_modified_on".data, .str (formatRFC3339 b.LastModifiedOn))], rest) :=
    fun f rest => parseFields_cons (by decide)
      (fun f r => parseValue_strLit hname f r) F3 f rest
  have F1 : ∀ f rest, parseFields (f + 6)
      ('"' :: ("id".data ++ '"' :: ':' ::
        '"' :: (b.ID ++ '"' :: ',' ::
        '"' :: ("name".data ++ '"' :: ':' ::
        '"' :: (b.Name ++ '"' :: ',' ::
        '"' :: ("last_modified_on".data ++ '"' :: ':' ::
        '"' :: (formatRFC3339 b.LastModifiedOn ++ '"' :: rbrace :: rest)))))))
      = .ok ([("id".data, .str b.ID), ("name".data, .str b.Name),
          ("last_modified_on".data, .str (formatRFC3339 b.LastModifiedOn))], rest) :=
    fun f rest => parseFields_cons (by decide)
      (fun f r => parseValue_strLit hid f r) F2 f rest
  have e : encodeBudget b ++ rest
      = lbrace :: ('"' :: ("id".data ++ '"' :: ':' ::
        '"' :: (b.ID ++ '"' :: ',' ::
        '"' :: ("name".data ++ '"' :: ':' ::
        '"' :: (b.Name ++ '"' :: ',' ::
        '"' :: ("last_modified_on".data ++ '"' :: ':' ::
        '"' :: (formatRFC3339 b.LastModifiedOn ++ '"' :: rbrace :: rest))))))) := by
    simp [encodeBudget, quoteStr]
  rw [e]
  exact parseValue_objIntro F1 (fun rest => ⟨_, rfl⟩) f rest



/-- Abbreviation for the per-budget side conditions of the round trip. -/
def GoodBudget (b : Budget) : Prop :=
  PlainStr b.ID ∧ PlainStr b.Name ∧ validGoTime b.LastModifiedOn = true

theorem encodeBudget_head (b : Budget) (z : List Char) :
    ∃ t, encodeBudget b ++ z = lbrace :: t := ⟨_, rfl⟩

theorem encodeItems_head {bs : List Budget} (h : bs ≠ []) (z : List Char) :
    ∃ t, encodeItems bs ++ z = lbrace :: t := by
  cases bs with
  | nil => exact absurd rfl h
  | cons b tl =>
    cases tl with
    | nil => exact ⟨_, rfl⟩
    | cons b2 tl2 => exact ⟨_, rfl⟩

theorem parseItems_encodeItems :
    ∀ (bs : List Budget), bs ≠ [] → (∀ b ∈ bs, GoodBudget b) →
    ∀ (f : Nat) (rest : List Char),
      parseItems (f + 9 * bs.length) (encodeItems bs ++ ']' :: rest)
        = .ok (bs.map budgetJson, rest) := by
  intro bs
  induction bs with
  | nil => intro h; exact absurd rfl h
  | cons b tl ih =>
    intro _ hall f rest
    have hb := hall b (List.mem_cons_self _ _)
    cases tl with
    | nil =>
      exact parseItems_single
        (fun f r => parseValue_encodeBudget b hb.1 hb.2.1 hb.2.2 f r) f rest
    | cons b2 tl2 =>
      have ihh := ih (by simp) (fun x hx => hall x (List.mem_cons_of_mem _ hx))
      have key := parseItems_cons
        (fun f r => parseValue_encodeBudget b hb.1 hb.2.1 hb.2.2 f r)
        ihh f rest
      have efuel : f + 9 * (b :: b2 :: tl2).length
          = f + (8 + 9 * (b2 :: tl2).length) + 1 := by
        simp [List.length_cons]
        ring
      have etext : encodeItems (b :: b2 :: tl2) ++ ']' :: rest
          = encodeBudget b ++ ',' :: (encodeItems (b2 :: tl2) ++ ']' :: rest) := by
        simp [encodeItems]
      rw [efuel, etext]
      exact key

theorem parseValue_encodeArr (bs : List Budget) (hall : ∀ b ∈ bs, GoodBudget b)
    (f : Nat) (rest : List Char) :
    parseValue (f + (9 * bs.length + 2)) (encodeBudgetsArr bs ++ rest)
      = .ok (.arr (bs.map budgetJson), rest) := by
  cases bs with
  | nil => exact parseValue_emptyArr (f + 1) rest
  | cons b tl =>
    have e : encodeBudgetsArr (b :: tl) ++ rest
        = '[' :: (encodeItems (b :: tl) ++ ']' :: rest) := by
      simp [encodeBudgetsArr]
    rw [e]
    exact parseValue_arrIntro
      (fun f r => parseItems_encodeItems (b :: tl) (by simp) hall f r)
      (fun r => encodeItems_head (by simp) (']' :: r)) f rest

theorem parseValue_encodeEnvelope (bs : List Budget)
    (hall : ∀ b ∈ bs, GoodBudget b) (f : Nat) (rest : List Char) :
    parseValue (f + (9 * bs.length + 8)) (encodeEnvelope bs ++ rest)
      = .ok (envelopeJson bs, rest) := by
  have Inner : ∀ f rest, parseFields (f + (9 * bs.length + 3))
      ('"' :: ("budgets".data ++ '"' :: ':' ::
        (encodeBudgetsArr bs ++ rbrace :: rest)))
      = .ok ([("budgets".data, .arr (bs.map budgetJson))], rest) :=
    fun f rest => parseFields_last (by decide)
      (fun f r => parseValue_encodeArr bs hall f r) f rest
  have InnerVal : ∀ f rest, parseValue (f + (9 * bs.length + 5))
      (lbrace :: ('"' :: ("budgets".data ++ '"' :: ':' ::
        (encodeBudgetsArr bs ++ rbrace :: rest))))
      = .ok (.obj [("budgets".data, .arr (bs.map budgetJson))], rest) :=
    fun f rest => parseValue_objIntro Inner (fun r => ⟨_, rfl⟩) f rest
  have Outer : ∀ f rest, parseFields (f + (9 * bs.length + 6))
      ('"' :: ("data".data ++ '"' :: ':' ::
        (lbrace :: ('"' :: ("budgets".data ++ '"' :: ':' ::
          (encodeBudgetsArr bs ++ rbrace :: rbrace :: rest))))))
      = .ok ([("data".data, .obj [("budgets".data, .arr (bs.map budgetJson))])], rest) :=
    fun f rest => parseFields_last (by decide) InnerVal f rest
  have e : encodeEnvelope bs ++ rest
      = lbrace :: ('"' :: ("data".data ++ '"' :: ':' ::
        (lbrace :: ('"' :: ("budgets".data ++ '"' :: ':' ::
          (encodeBudgetsArr bs ++ rbrace :: rbrace :: rest)))))) := by
    simp [encodeEnvelope, encodeInner, quoteStr]
  rw [e]
  exact parseValue_objIntro Outer (fun r => ⟨_, rfl⟩) f rest

theorem quoteStr_length (s : List Char) : (quoteStr s).length = s.length + 2 := by
  simp [quoteStr]

theorem encodeBudget_len (b : Budget) : 5 ≤ (encodeBudget b).length := by
  simp [encodeBudget, quoteStr_length]

theorem encodeItems_len : ∀ bs : List Budget, 5 * bs.length ≤ (encodeItems bs).length
  | [] => by simp [encodeItems]
  | [b] => by
    simpa [encodeItems] using encodeBudget_len b
  | b :: b2 :: tl => by
    have h1 := encodeBudget_len b
    have h2 := encodeItems_len (b2 :: tl)
    simp only [encodeItems, List.length_append, List.length_cons]
    simp only [List.length_cons] at h2 ⊢
    omega

theorem encodeEnvelope_len (bs : List Budget) :
    9 * bs.length + 8 ≤ 2 * (encodeEnvelope bs).length + 2 := by
  have harr : 5 * bs.length ≤ (encodeBudgetsArr bs).length := by
    cases bs with
    | nil => simp [encodeBudgetsArr]
    | cons b tl =>
      have := encodeItems_len (b :: tl)
      simp only [encodeBudgetsArr, List.length_cons, List.length_append]
      simp only [List.length_cons] at this ⊢
      omega
  simp only [encodeEnvelope, encodeInner, List.length_cons, List.length_append,
    quoteStr_length]
  omega

theorem parseJson_encodeEnvelope (bs : List Budget)
    (hall : ∀ b ∈ bs, GoodBudget b) :
    parseJson (encodeEnvelope bs) = .ok (envelopeJson bs) := by
  have hlen := encodeEnvelope_len bs
  have key := parseValue_encodeEnvelope bs hall
    (2 * (encodeEnvelope bs).length + 2 - (9 * bs.length + 8)) []
  rw [Nat.sub_add_cancel hlen, List.append_nil] at key
  unfold parseJson
  rw [key]
  simp [skipWs]

theorem unmarshalBudget_budgetJson {b : Budget}
    (hv : validGoTime b.LastModifiedOn = true) :
    unmarshalBudget (budgetJson b) = .ok b := by
  have k1 : keyMatches "id".data "id".data = true := by decide
  have k2 : keyMatches "name".data "name".data = true := by decide
  have k3 : keyMatches "last_modified_on".data "last_modified_on".data = true := by decide
  have k4 : keyMatches "name".data "id".data = false := by decide
  have k5 : keyMatches "last_modified_on".data "id".data = false := by decide
  have k6 : keyMatches "last_modified_on".data "name".data = false := by decide
  simp [budgetJson, unmarshalBudget, unmarshalBudgetFields, k1, k2, k3, k4, k5, k6,
    setStringField, setTimeField, parseRFC3339_format hv]

theorem unmarshalBudgetList_map :
    ∀ bs : List Budget, (∀ b ∈ bs, GoodBudget b) →
      unmarshalBudgetList (bs.map budgetJson) = .ok bs
  | [], _ => rfl
  | b :: tl, h => by
    have hb := h b (List.mem_cons_self _ _)
    have htl := unmarshalBudgetList_map tl fun x hx => h x (List.mem_cons_of_mem _ hx)
    simp [unmarshalBudgetList, unmarshalBudget_budgetJson hb.2.2, htl]

theorem unmarshalWrapper_envelopeJson (bs : List Budget)
    (hall : ∀ b ∈ bs, GoodBudget b) :
    unmarshalWrapper (envelopeJson bs) = .ok bs := by
  have kd : keyMatches "data".data "data".data = true := by decide
  have kb : keyMatches "budgets".data "budgets".data = true := by decide
  simp [envelopeJson, unmarshalWrapper, unmarshalWrapperFields, kd,
    setDataField, unmarshalDataFields, kb, setBudgetsField,
    unmarshalBudgetList_map bs hall]

instance (b : Budget) : Decidable (GoodBudget b) := by
  unfold GoodBudget
  infer_instance

theorem unmarshalWrapperFields_nomatch :
    ∀ (fs : List (List Char × Json)) (cur : List Budget),
      (∀ kv ∈ fs, keyMatches kv.1 "data".data = false) →
      unmarshalWrapperFields fs cur = .ok cur
  | [], cur, _ => rfl
  | (k, v) :: rest, cur, h => by
    have hk := h (k, v) (List.mem_cons_self _ _)
    simp only [unmarshalWrapperFields, hk, Bool.false_eq_true, if_false]
    exact unmarshalWrapperFields_nomatch rest cur
      fun kv hkv => h kv (List.mem_cons_of_mem _ hkv)

theorem unmarshalDataFields_nomatch :
    ∀ (gs : List (List Char × Json)) (cur : List Budget),
      (∀ kv ∈ gs, keyMatches kv.1 "budgets".data = false) →
      unmarshalDataFields gs cur = .ok cur
  | [], cur, _ => rfl
  | (k, v) :: rest, cur, h => by
    have hk := h (k, v) (List.mem_cons_self _ _)
    simp only [unmarshalDataFields, hk, Bool.false_eq_true, if_false]
    exact unmarshalDataFields_nomatch rest cur
      fun kv hkv => h kv (List.mem_cons_of_mem _ hkv)

/-- C7 counterexample: with `id` given as JSON `null` — a non-string —
`decodeBudgets` succeeds with the zero-valued summary instead of failing:
Go's decoder treats `null` as a no-op on the field it targets. -/
theorem C7_counterexample_null_id :
    decodeBudgets "\x7b\"data\":\x7b\"budgets\":[\x7b\"id\":null\x7d]\x7d\x7d".data
      = .ok [zeroBudget] ∧
    ¬ ∃ e, decodeBudgets "\x7b\"data\":\x7b\"budgets\":[\x7b\"id\":null\x7d]\x7d\x7d".data
      = .error e := by
  refine ⟨rfl, ?_⟩
  intro ⟨e, he⟩
  exact Except.noConfusion he

/-- C7 amended: a well-formed envelope (the canonical rendering of any list
of summaries with escape-free strings and valid timestamps) decodes to
exactly those summaries, in order, with the same `id`, `name` and
`last_modified_on` values and no sorting, deduplication or filtering;
malformed or truncated JSON — e.g. the repository test's truncated object —
yields a decode error, as does an `id` given as a value that is neither a
string nor `null`; a syntax error always propagates and never produces a
zero-value success (and the model is a total function, so no panic). -/
theorem C7_amended_decodeBudgets (bs : List Budget)
    (hall : ∀ b ∈ bs, GoodBudget b) :
    decodeBudgets (encodeEnvelope bs) = .ok bs ∧
    (∀ cs e, parseJson cs = .error e → decodeBudgets cs = .error e) ∧
    decodeBudgets "\x7b\"data\":\x7b\"budgets\":[\x7b\"id\":1,\"name".data
      = .error (.msg "invalid string literal") ∧
    decodeBudgets "\x7b\"data\":\x7b\"budgets\":[\x7b\"id\":1\x7d]\x7d\x7d".data
      = .error (.msg "json: cannot unmarshal value into Go value of type string") := by
  refine ⟨?_, ?_, rfl, rfl⟩
  · unfold decodeBudgets
    rw [parseJson_encodeEnvelope bs hall]
    exact unmarshalWrapper_envelopeJson bs hall
  · intro cs e h
    unfold decodeBudgets
    rw [h]

/-- Witness for the amended C7 on the two-budget list of the repository's
`TestFetchBudgets` fixture. -/
theorem C7_amended_decodeBudgets_witness :
    (∀ b ∈ [(⟨"1".data, "A".data, ⟨2025, 5, 14, 10, 0, 0⟩⟩ : Budget),
            ⟨"2".data, "B".data, ⟨2025, 5, 14, 11, 0, 0⟩⟩], GoodBudget b) ∧
    decodeBudgets (encodeEnvelope
        [⟨"1".data, "A".data, ⟨2025, 5, 14, 10, 0, 0⟩⟩,
         ⟨"2".data, "B".data, ⟨2025, 5, 14, 11, 0, 0⟩⟩])
      = .ok [⟨"1".data, "A".data, ⟨2025, 5, 14, 10, 0, 0⟩⟩,
             ⟨"2".data, "B".data, ⟨2025, 5, 14, 11, 0, 0⟩⟩] :=
  ⟨by decide,
    (C7_amended_decodeBudgets
      [⟨"1".data, "A".data, ⟨2025, 5, 14, 10, 0, 0⟩⟩,
       ⟨"2".data, "B".data, ⟨2025, 5, 14, 11, 0, 0⟩⟩] (by decide)).1⟩

/-- C10 counterexample: `5` is syntactically valid JSON without a `data`
key, yet `decodeBudgets` rejects it (a number cannot unmarshal into the
wrapper struct) instead of returning an empty list. -/
theorem C10_counterexample_number :
    decodeBudgets "5".data
      = .error (.msg "json: cannot unmarshal value into Go value of type struct") ∧
    decodeBudgets "5".data ≠ .ok [] := by
  refine ⟨rfl, ?_⟩
  intro h
  exact Except.noConfusion h

/-- C10 amended: a structurally incomplete envelope is not an error
provided the present values are object- or null-typed: a top-level `null`,
an object with no key matching `data`, a `data` that is `null` or an object
with no key matching `budgets`, or a `budgets` that is `null`, all decode
to the empty list with no error (`{}` and `null` included, byte-level); but
a top-level value of a non-object, non-null type — such as `5` — is a type
error, not an empty success. -/
theorem C10_amended_incomplete_envelope
    (fs gs : List (List Char × Json))
    (hnd : ∀ kv ∈ fs, keyMatches kv.1 "data".data = false)
    (hnb : ∀ kv ∈ gs, keyMatches kv.1 "budgets".data = false) :
    unmarshalWrapper (.obj fs) = .ok [] ∧
    unmarshalWrapper .null = .ok [] ∧
    unmarshalWrapper (.obj [("data".data, .null)]) = .ok [] ∧
    unmarshalWrapper (.obj [("data".data, .obj gs)]) = .ok [] ∧
    unmarshalWrapper (.obj [("data".data, .obj [("budgets".data, .null)])]) = .ok [] ∧
    decodeBudgets "\x7b\x7d".data = .ok [] ∧
    decodeBudgets "null".data = .ok [] := by
  refine ⟨?_, rfl, rfl, ?_, rfl, rfl, rfl⟩
  · exact unmarshalWrapperFields_nomatch fs [] hnd
  · have kd : keyMatches "data".data "data".data = true := by decide
    simp only [unmarshalWrapper, unmarshalWrapperFields, kd, if_pos, setDataField]
    rw [unmarshalDataFields_nomatch gs [] hnb]

/-- Witness for the amended C10 at concrete unmatched fields. -/
theorem C10_amended_incomplete_envelope_witness :
    (∀ kv ∈ [(("foo".data : List Char), Json.bool true)],
        keyMatches kv.1 "data".data = false) ∧
    (∀ kv ∈ [(("bar".data : List Char), Json.num ['1'])],
        keyMatches kv.1 "budgets".data = false) ∧
    unmarshalWrapper (.obj [("foo".data, Json.bool true)]) = .ok [] ∧
    unmarshalWrapper (.obj [("data".data, .obj [("bar".data, Json.num ['1'])])]) = .ok [] :=
  ⟨by decide, by decide,
    (C10_amended_incomplete_envelope [("foo".data, Json.bool true)]
      [("bar".data, Json.num ['1'])] (by decide) (by decide)).1,
    (C10_amended_incomplete_envelope [("foo".data, Json.bool true)]
      [("bar".data, Json.num ['1'])] (by decide) (by decide)).2.2.2.1⟩

/-! ### The HTTP layer (`httpGet`) and the orchestrator (`run`)

Effects are modelled by explicit behaviour functions: an `HClient` carries
the `http.NewRequest` validation outcome per URL and the `client.Do`
outcome per request; a response carries the status code, the outcome of
`io.ReadAll` on its body, and the outcome of `Body.Close`; the filesystem's
answer to `os.WriteFile` is a function from path and contents to an
optional error.  `defer`red code runs on every exit path after its
registration, so the embedding of `httpGet` applies the deferred
close-and-join on each return that follows a successful `client.Do`. -/

/-- The observable behaviour of one `*http.Response`: its status code, what
`io.ReadAll(resp.Body)` returns (`body` with `readErr = none` on a full
read), and what `resp.Body.Close()` returns. -/
structure Response : Type where
  statusCode : Nat
  body : List Char
  readErr : Option GoErr
  closeErr : Option GoErr

/-- An HTTP request as `httpGet` builds it: the URL and the value it sets
for the `Authorization` header. -/
structure Request : Type where
  url : List Char
  authHeader : List Char

/-- Model of an `*http.Client` together with the network behind it. -/
structure HClient : Type where
  newRequestErr : List Char → Option GoErr
  doRequest : Request → Except GoErr Response

/-- What `httpGet` hands back: the two named return values `data` and
`err`, plus whether the response body was closed (the observable effect of
the `defer`). -/
structure HttpGetOut : Type where
  data : List Char
  err : Option GoErr
  bodyClosed : Bool

/-- `httpGet`: build the request (failing requests return the
`http.NewRequest` error), set `Authorization: Bearer <token>`, run
`client.Do` (failing calls return the transport error; no body exists on
either early path).  Once a response exists the deferred
`err = errors.Join(err, resp.Body.Close())` runs on every return: a
non-200 status makes `err` the `bad status` error joined with any close
failure and leaves `data` nil; otherwise `data, err := io.ReadAll` and the
read error is joined with any close failure. -/
def httpGet (client : HClient) (url token : List Char) : HttpGetOut :=
  match client.newRequestErr url with
  | some e => ⟨[], some e, false⟩
  | none =>
    match client.doRequest ⟨url, "Bearer ".data ++ token⟩ with
    | .error e => ⟨[], some e, false⟩
    | .ok resp =>
      if resp.statusCode ≠ 200 then
        ⟨[], errorsJoin (some (.badStatus resp.statusCode)) resp.closeErr, true⟩
      else
        ⟨resp.body, errorsJoin resp.readErr resp.closeErr, true⟩

/-- Does an error value carry the given numeric status code somewhere in
its tree (through wrapping and joining)? -/
def carriesStatus : GoErr → Nat → Bool
  | .badStatus c, n => c == n
  | .join a b, n => carriesStatus a n || carriesStatus b n
  | .wrap _ e, n => carriesStatus e n
  | .msg _, _ => false

/-- `Config` without the logger: CLI parameters plus the injected client
(log output is not an observable this development states anything about). -/
structure Config : Type where
  Token : List Char
  BaseURL : List Char
  OutputDir : List Char
  Verbose : Bool
  Client : HClient

/-- The filesystem's answer to `os.WriteFile`: path and contents to an
optional error. -/
def FsBehaviour : Type := List Char → List Char → Option GoErr

/-- `writeFile`: `os.WriteFile path data 0644`, whose outcome the
environment prescribes. -/
def writeFile (fs : FsBehaviour) (path : List Char) (data : List Char) :
    Option GoErr := fs path data

/-- `filepath.Join dir name` for a nonempty clean `dir` and the clean,
slash-free relative `name` that `buildFilename` produces: `dir + "/" +
name` (Go's `Join` additionally runs `Clean`, a no-op on such inputs). -/
def filepathJoin (dir name : List Char) : List Char := dir ++ '/' :: name

/-- `fetchBudgets`: `httpGet` against the base URL, then `decodeBudgets`;
either failure propagates (the verbose count log has no observable
effect here). -/
def fetchBudgets (cfg : Config) : Except GoErr (List Budget) :=
  let out := httpGet cfg.Client cfg.BaseURL cfg.Token
  match out.err with
  | some e => .error e
  | none => decodeBudgets out.data

/-- `downloadAndSave`: GET `BaseURL + "/" + b.ID` (`fmt.Sprintf "%s/%s"`),
and on success write the body verbatim to `filepath.Join(OutputDir,
buildFilename b)`.  The result pairs the Go return value with the log of
`writeFile` calls performed, so that what was written where is part of the
model's observable behaviour. -/
def downloadAndSave (cfg : Config) (fs : FsBehaviour) (b : Budget) :
    Except GoErr (List Char) × List (List Char × List Char) :=
  let out := httpGet cfg.Client (cfg.BaseURL ++ '/' :: b.ID) cfg.Token
  match out.err with
  | some e => (.error (.wrap "download budget" e), [])
  | none =>
    let path := filepathJoin cfg.OutputDir (buildFilename b)
    match writeFile fs path out.data with
    | some e => (.error (.wrap "write file" e), [(path, out.data)])
    | none => (.ok path, [(path, out.data)])

/-- The per-item loop of `run`: each iteration attempts
`downloadAndSave`, logs a warning on error or the path on success, and
increments the counter on both branches. -/
def runLoop (cfg : Config) (fs : FsBehaviour) : List Budget → Nat → Nat
  | [], count => count
  | b :: rest, count =>
    match downloadAndSave cfg fs b with
    | (.error _, _) => runLoop cfg fs rest (count + 1)
    | (.ok _, _) => runLoop cfg fs rest (count + 1)

/-- `run`: create the output directory (fatal on failure, with the
`failed to create output dir` context), fetch the budget list (fatal on
failure, with the `fetch budgets` context), then loop over the summaries
counting every attempt; the loop result is returned with a `nil` error. -/
def run (cfg : Config) (mkdirErr : Option GoErr) (fs : FsBehaviour) :
    Nat × Option GoErr :=
  match mkdirErr with
  | some e => (0, some (.wrap "failed to create output dir" e))
  | none =>
    match fetchBudgets cfg with
    | .error e => (0, some (.wrap "fetch budgets" e))
    | .ok budgets => (runLoop cfg fs budgets 0, none)

theorem runLoop_count (cfg : Config) (fs : FsBehaviour) :
    ∀ (bs : List Budget) (n : Nat), runLoop cfg fs bs n = n + bs.length := by
  intro bs
  induction bs with
  | nil => intro n; simp [runLoop]
  | cons b tl ih =>
    intro n
    rcases h : downloadAndSave cfg fs b with ⟨res, log⟩
    rw [runLoop.eq_def]
    cases res <;> simp only [h, ih, List.length_cons] <;> omega

/-- C5: resource discipline of `httpGet`.  Once `client.Do` has succeeded,
the body is closed on every exit path; a close failure is combined with a
read failure via `errors.Join` so that neither is discarded, and a close
failure alongside a successful read still surfaces as a returned error. -/
theorem C5_httpGet_close_discipline (client : HClient) (url token : List Char)
    (resp : Response)
    (hreq : client.newRequestErr url = none)
    (hdo : client.doRequest ⟨url, "Bearer ".data ++ token⟩ = .ok resp) :
    (httpGet client url token).bodyClosed = true ∧
    (∀ r c, resp.statusCode = 200 → resp.readErr = some r →
      resp.closeErr = some c →
      (httpGet client url token).err = some (.join r c)) ∧
    (∀ c, resp.statusCode = 200 → resp.readErr = none →
      resp.closeErr = some c →
      (httpGet client url token).err = some c) := by
  unfold httpGet
  rw [hreq, hdo]
  refine ⟨?_, ?_, ?_⟩
  · by_cases hs : resp.statusCode = 200 <;> simp [hs]
  · intro r c h200 hr hc
    simp [h200, hr, hc, errorsJoin]
  · intro c h200 hr hc
    simp [h200, hr, hc, errorsJoin]

/-- Witness for C5, mirroring the repository's `TestHttpGetCloseError`: a
200 response whose body reads fully but whose `Close` fails still makes
`httpGet` return an error (and the body was closed). -/
theorem C5_httpGet_close_discipline_witness :
    (HClient.mk (fun _ => none)
        (fun _ => .ok ⟨200, "data".data, none, some (.msg "close error")⟩)).newRequestErr
        "u".data = none ∧
    (httpGet (HClient.mk (fun _ => none)
        (fun _ => .ok ⟨200, "data".data, none, some (.msg "close error")⟩))
      "u".data "tok".data).bodyClosed = true ∧
    (httpGet (HClient.mk (fun _ => none)
        (fun _ => .ok ⟨200, "data".data, none, some (.msg "close error")⟩))
      "u".data "tok".data).err = some (.msg "close error") := by
  refine ⟨rfl, ?_, ?_⟩
  · exact (C5_httpGet_close_discipline _ "u".data "tok".data
      ⟨200, "data".data, none, some (.msg "close error")⟩ rfl rfl).1
  · exact (C5_httpGet_close_discipline _ "u".data "tok".data
      ⟨200, "data".data, none, some (.msg "close error")⟩ rfl rfl).2.2
      (.msg "close error") rfl rfl rfl

/-- C6: status handling of `httpGet`.  Any non-200 status yields an error
carrying the numeric code and no body data in the success slot; a 200
status with a successful read returns the full body bytes (with a `nil`
error when the close also succeeds). -/
theorem C6_httpGet_status (client : HClient) (url token : List Char)
    (resp : Response)
    (hreq : client.newRequestErr url = none)
    (hdo : client.doRequest ⟨url, "Bearer ".data ++ token⟩ = .ok resp) :
    (resp.statusCode ≠ 200 →
      (httpGet client url token).data = [] ∧
      ∃ e, (httpGet client url token).err = some e ∧
        carriesStatus e resp.statusCode = true) ∧
    (resp.statusCode = 200 → resp.readErr = none →
      (httpGet client url token).data = resp.body ∧
      (resp.closeErr = none → (httpGet client url token).err = none)) := by
  unfold httpGet
  rw [hreq, hdo]
  constructor
  · intro hs
    refine ⟨by simp [hs], ?_⟩
    rcases hc : resp.closeErr with _ | c
    · exact ⟨.badStatus resp.statusCode, by simp [hs, hc, errorsJoin, carriesStatus]⟩
    · exact ⟨.join (.badStatus resp.statusCode) c,
        by simp [hs, hc, errorsJoin, carriesStatus]⟩
  · intro hs hr
    refine ⟨by simp [hs], ?_⟩
    intro hc
    simp [hs, hr, hc, errorsJoin]

/-- Witness for C6: a 401 response yields an error carrying 401 and no
data; a 200 response with clean read and close yields the body. -/
theorem C6_httpGet_status_witness :
    ((httpGet (HClient.mk (fun _ => none) (fun _ => .ok ⟨401, [], none, none⟩))
        "u".data "tok".data).data = [] ∧
      ∃ e, (httpGet (HClient.mk (fun _ => none)
          (fun _ => .ok ⟨401, [], none, none⟩)) "u".data "tok".data).err = some e ∧
        carriesStatus e 401 = true) ∧
    ((httpGet (HClient.mk (fun _ => none)
        (fun _ => .ok ⟨200, "test data".data, none, none⟩))
      "u".data "tok".data).data = "test data".data ∧
     (httpGet (HClient.mk (fun _ => none)
        (fun _ => .ok ⟨200, "test data".data, none, none⟩))
      "u".data "tok".data).err = none) := by
  constructor
  · exact (C6_httpGet_status
      (HClient.mk (fun _ => none) (fun _ => .ok ⟨401, [], none, none⟩))
      "u".data "tok".data ⟨401, [], none, none⟩ rfl rfl).1 (by decide)
  · have h := (C6_httpGet_status
      (HClient.mk (fun _ => none) (fun _ => .ok ⟨200, "test data".data, none, none⟩))
      "u".data "tok".data
      ⟨200, "test data".data, none, none⟩ rfl rfl).2 rfl rfl
    exact ⟨h.1, h.2 rfl⟩

/-- C8: `downloadAndSave` requests `BaseURL + "/" + ID`; on download
failure it returns the error wrapped with the `download budget` stage and
writes nothing; on success it writes the response bytes verbatim to
`filepath.Join(OutputDir, buildFilename b)` and returns that path, and a
write failure returns the error wrapped with the `write file` stage. -/
theorem C8_downloadAndSave_spec (cfg : Config) (fs : FsBehaviour) (b : Budget) :
    (∀ e, (httpGet cfg.Client (cfg.BaseURL ++ '/' :: b.ID) cfg.Token).err = some e →
      downloadAndSave cfg fs b = (.error (.wrap "download budget" e), [])) ∧
    ((httpGet cfg.Client (cfg.BaseURL ++ '/' :: b.ID) cfg.Token).err = none →
      (writeFile fs (filepathJoin cfg.OutputDir (buildFilename b))
          (httpGet cfg.Client (cfg.BaseURL ++ '/' :: b.ID) cfg.Token).data = none →
        downloadAndSave cfg fs b =
          (.ok (filepathJoin cfg.OutputDir (buildFilename b)),
            [(filepathJoin cfg.OutputDir (buildFilename b),
              (httpGet cfg.Client (cfg.BaseURL ++ '/' :: b.ID) cfg.Token).data)])) ∧
      (∀ e, writeFile fs (filepathJoin cfg.OutputDir (buildFilename b))
          (httpGet cfg.Client (cfg.BaseURL ++ '/' :: b.ID) cfg.Token).data = some e →
        downloadAndSave cfg fs b =
          (.error (.wrap "write file" e),
            [(filepathJoin cfg.OutputDir (buildFilename b),
              (httpGet cfg.Client (cfg.BaseURL ++ '/' :: b.ID) cfg.Token).data)]))) := by
  refine ⟨?_, fun hok => ⟨?_, ?_⟩⟩ <;> unfold downloadAndSave
  · intro e he
    simp [he]
  · intro hw
    simp [hok, hw]
  · intro e hw
    simp [hok, hw]

/-- Witness for C8, mirroring `TestDownloadAndSave`: detail endpoint
returns 200 with a small body, the write succeeds, and the returned path
joins the output directory with the built filename. -/
theorem C8_downloadAndSave_spec_witness :
    downloadAndSave
        ⟨"tok".data, "u".data, "out".data, false,
          HClient.mk (fun _ => none) (fun _ => .ok ⟨200, "D".data, none, none⟩)⟩
        (fun _ _ => none)
        ⟨"x".data, "X".data, ⟨2025, 1, 1, 0, 0, 0⟩⟩
      = (.ok "out/X_x_20250101T000000Z.json".data,
          [("out/X_x_20250101T000000Z.json".data, "D".data)]) := by
  have h := (C8_downloadAndSave_spec
      ⟨"tok".data, "u".data, "out".data, false,
        HClient.mk (fun _ => none) (fun _ => .ok ⟨200, "D".data, none, none⟩)⟩
      (fun _ _ => none)
      ⟨"x".data, "X".data, ⟨2025, 1, 1, 0, 0, 0⟩⟩).2 rfl
  exact h.1 rfl

/-- C2: the orchestrator's terminal results.  With directory creation and
list fetch succeeding, `run` returns the number of listed summaries with a
`nil` error — the counter increments once per summary on both the failing
and succeeding branches of the per-item attempt; a directory-creation or
list-fetch failure returns `(0, error)` with the respective stage
context. -/
theorem C2_run_totals (cfg : Config) (mkdirErr : Option GoErr) (fs : FsBehaviour) :
    (∀ bs, mkdirErr = none → fetchBudgets cfg = .ok bs →
      run cfg mkdirErr fs = (bs.length, none)) ∧
    (∀ e, mkdirErr = some e →
      run cfg mkdirErr fs = (0, some (.wrap "failed to create output dir" e))) ∧
    (∀ e, mkdirErr = none → fetchBudgets cfg = .error e →
      run cfg mkdirErr fs = (0, some (.wrap "fetch budgets" e))) := by
  refine ⟨?_, ?_, ?_⟩
  · intro bs hm hf
    subst hm
    have key : run cfg none fs = (runLoop cfg fs bs 0, none) := by
      unfold run
      rw [hf]
    rw [key, runLoop_count]
    simp
  · intro e hm
    subst hm
    rfl
  · intro e hm hf
    subst hm
    have key : run cfg none fs = (0, some (.wrap "fetch budgets" e)) := by
      unfold run
      rw [hf]
    exact key



/-- The mock network used by the C2 witness: the base URL `u` serves the
two-budget envelope with status 200; the detail URL `u/1` serves a small
body with 200; every other URL (in particular `u/2`) answers 500. -/
def c2client : HClient :=
  HClient.mk (fun _ => none) fun req =>
    if req.url = "u".data then
      .ok ⟨200, encodeEnvelope
        [⟨"1".data, "A".data, ⟨2025, 5, 14, 10, 0, 0⟩⟩,
         ⟨"2".data, "B".data, ⟨2025, 5, 14, 11, 0, 0⟩⟩], none, none⟩
    else if req.url = "u/1".data then .ok ⟨200, "D".data, none, none⟩
    else .ok ⟨500, [], none, none⟩

/-- The configuration used by the C2 witness. -/
def c2cfg : Config := ⟨"tok".data, "u".data, "o".data, true, c2client⟩

set_option maxRecDepth 100000 in
/-- Witness for C2: with two listed budgets of which the second detail
fetch fails with a server error, `run` still returns count 2 and no
error. -/
theorem C2_run_totals_witness :
    fetchBudgets c2cfg
      = .ok [⟨"1".data, "A".data, ⟨2025, 5, 14, 10, 0, 0⟩⟩,
             ⟨"2".data, "B".data, ⟨2025, 5, 14, 11, 0, 0⟩⟩] ∧
    (downloadAndSave c2cfg (fun _ _ => none)
        ⟨"2".data, "B".data, ⟨2025, 5, 14, 11, 0, 0⟩⟩).1
      = .error (.wrap "download budget" (.badStatus 500)) ∧
    run c2cfg none (fun _ _ => none) = (2, none) := by
  refine ⟨rfl, rfl, ?_⟩
  exact (C2_run_totals c2cfg none (fun _ _ => none)).1
    [⟨"1".data, "A".data, ⟨2025, 5, 14, 10, 0, 0⟩⟩,
     ⟨"2".data, "B".data, ⟨2025, 5, 14, 11, 0, 0⟩⟩] rfl rfl

end YnabVault
